import Mathlib

/-!
Shallow embedding of `src/code/main.py` (SchwarzRene/SAR): the smooth synchronized
servo motion routine `move_servos_smoothly` (lines 81-129) together with the
surrounding configuration constants.

Modelling choices:
* Angles are exact rationals (`ℚ`); the Python floats are modelled exactly.
* `current_angles` is a `List (Option ℚ)` mirroring the Python list that may hold
  `None` placeholders for servos that failed to initialize.
* The actuator sink (`s.angle = ...`) is modelled by recording the sequence of
  writes `(channel, value)`; a sink oracle `sinkFails : ℕ → Bool` says whether the
  n-th sink call (0-based, counted across the whole move) raises a hardware error,
  in which case the exception propagates out of the function (there is no
  try/except inside `move_servos_smoothly`).
* `time.sleep` and `print` calls have no observable effect on the data and are
  dropped.
-/

namespace SAR

/- The toolchain marks the core `Rat` arithmetic operations `[irreducible]`, which
blocks `decide`-style evaluation of the model on concrete inputs; restore the
default reducibility locally (the kernel is unaffected either way). -/
attribute [local semireducible] Rat.add Rat.sub Rat.mul Rat.inv

/-- Line 19: `SERVO_ACTUATION_RANGE = 180`. -/
def SERVO_ACTUATION_RANGE : ℚ := 180

/-- Lines 84-88 and 116: `max(min_angle, min(max_angle, x))` with `min_angle = 0`. -/
def clamp (maxAngle x : ℚ) : ℚ := max 0 (min maxAngle x)

/-- Python `int(q)`: truncation toward zero (`Int.tdiv` is T-division). -/
def pyInt (q : ℚ) : ℤ := Int.tdiv q.num q.den

/-- Python `abs(x)`. -/
def pyabs (x : ℚ) : ℚ := if 0 ≤ x then x else -x

/-- Lines 90-94: `max_delta`, the maximum of `abs(target_angle - current_angles[i])`
over the servos whose tracked angle is not `None`, starting from `0`.
`t` is the already-clamped target angle (line 88 runs before line 91). -/
def maxDelta (t : ℚ) (cur : List (Option ℚ)) : ℚ :=
  cur.foldl (fun m c => match c with | some a => max m (pyabs (t - a)) | none => m) 0

/-- Lines 96-99: `num_steps = int(max_delta / step)`, bumped to `1` when zero.
Defined only for `step ≠ 0` (`step = 0` raises `ZeroDivisionError`, handled in
`move_servos_smoothly`). -/
def numSteps (t step : ℚ) (cur : List (Option ℚ)) : ℤ :=
  if pyInt (maxDelta t cur / step) = 0 then 1 else pyInt (maxDelta t cur / step)

/-- Lines 101-107: `increments[i] = (target_angle - current_angles[i]) / num_steps`
for tracked servos, `0` for `None` placeholders. -/
def increments (t : ℚ) (cur : List (Option ℚ)) (n : ℤ) : List ℚ :=
  cur.map (fun c => match c with | some a => (t - a) / (n : ℚ) | none => 0)

/-- Execution record: the tracked `current_angles` list, the sequence of successful
sink writes `(channel, value)` in order, and the number of sink calls made so far. -/
structure Exec where
  cur : List (Option ℚ)
  writes : List (ℕ × ℚ)
  wcount : ℕ
deriving DecidableEq

/-- Lines 113-117: the body of the tick loop for channel `i`. The sink write
`s.angle = max(min_angle, min(max_angle, new_angle))` (line 116) happens before the
tracker update `current_angles[i] = new_angle` (line 117): if the sink raises, the
tracker entry keeps its old value. Note the tracker receives the *unclamped*
`new_angle`. -/
def tickChannel (maxAngle : ℚ) (sinkFails : ℕ → Bool) (inc : List ℚ)
    (e : Exec) (i : ℕ) : Except (ℕ × Exec) Exec :=
  match e.cur.getD i none with
  | none => .ok e
  | some a =>
    let newAngle := a + inc.getD i 0
    if sinkFails e.wcount then .error (i, e)
    else .ok ⟨e.cur.set i (some newAngle),
              e.writes ++ [(i, clamp maxAngle newAngle)], e.wcount + 1⟩

/-- Lines 112-117: the inner loop of one tick over all channels in index order. -/
def tickAll (maxAngle : ℚ) (sinkFails : ℕ → Bool) (inc : List ℚ) (e : Exec) :
    Except (ℕ × Exec) Exec :=
  (List.range e.cur.length).foldlM (tickChannel maxAngle sinkFails inc) e

/-- Lines 111-119: `for step_num in range(num_steps)` — `k` tick iterations. -/
def runTicks (maxAngle : ℚ) (sinkFails : ℕ → Bool) (inc : List ℚ) :
    ℕ → Exec → Except (ℕ × Exec) Exec
  | 0, e => .ok e
  | k + 1, e => do runTicks maxAngle sinkFails inc k (← tickAll maxAngle sinkFails inc e)

/-- Lines 124-127: the final exact-snap for channel `i`: `s.angle = target_angle`
then `current_angles[i] = target_angle` (`target_angle` is already clamped). -/
def snapChannel (t : ℚ) (sinkFails : ℕ → Bool) (e : Exec) (i : ℕ) :
    Except (ℕ × Exec) Exec :=
  match e.cur.getD i none with
  | none => .ok e
  | some _ =>
    if sinkFails e.wcount then .error (i, e)
    else .ok ⟨e.cur.set i (some t), e.writes ++ [(i, t)], e.wcount + 1⟩

/-- Lines 123-127: the final exact-snap loop over all channels. -/
def snapAll (t : ℚ) (sinkFails : ℕ → Bool) (e : Exec) : Except (ℕ × Exec) Exec :=
  (List.range e.cur.length).foldlM (snapChannel t sinkFails) e

/-- Outcome of one call of `move_servos_smoothly`. -/
inductive MoveResult where
  /-- The function returned normally with the final execution record. -/
  | ok (e : Exec)
  /-- A sink write for `channel` raised; the exception escapes the function with
  the execution record as left behind at that moment. -/
  | hardwareError (channel : ℕ) (e : Exec)
  /-- Line 97 raised `ZeroDivisionError` (`step == 0`), before any tick or write. -/
  | zeroDivisionError
deriving DecidableEq

/-- Lines 81-129: `move_servos_smoothly(target_angle, current_angles, step, delay)`.
`maxAngle` is the global `SERVO_ACTUATION_RANGE`; the `delay` parameter only feeds
`time.sleep` and is dropped. -/
def move_servos_smoothly (maxAngle target : ℚ) (cur : List (Option ℚ)) (step : ℚ)
    (sinkFails : ℕ → Bool) : MoveResult :=
  let t := clamp maxAngle target
  if step = 0 then .zeroDivisionError
  else
    let n := numSteps t step cur
    let inc := increments t cur n
    match runTicks maxAngle sinkFails inc n.toNat ⟨cur, [], 0⟩ with
    | .error (i, e) => .hardwareError i e
    | .ok e1 =>
      match snapAll t sinkFails e1 with
      | .error (i, e) => .hardwareError i e
      | .ok e2 => .ok e2

/-- Sink oracle that never raises. -/
def noFail : ℕ → Bool := fun _ => false

/-- The tracked `current_angles` list after the first `k` iterations of the tick
loop of a move executed against a never-failing sink. -/
def tickStateAfter (maxAngle target : ℚ) (cur : List (Option ℚ)) (step : ℚ)
    (k : ℕ) : List (Option ℚ) :=
  match runTicks maxAngle noFail
      (increments (clamp maxAngle target) cur (numSteps (clamp maxAngle target) step cur))
      k ⟨cur, [], 0⟩ with
  | .ok e => e.cur
  | .error pe => pe.2.cur

/-! ### Proof-layer definitions: failure-free executors and book-keeping -/

/-- Generic per-channel step: skip `None` trackers, otherwise record the write
`(i, wv a i)` and store `upd a i`. -/
def chanStep (upd wv : ℚ → ℕ → ℚ) (e : Exec) (i : ℕ) : Exec :=
  match e.cur.getD i none with
  | none => e
  | some a => ⟨e.cur.set i (some (upd a i)), e.writes ++ [(i, wv a i)], e.wcount + 1⟩

/-- The tick-loop body against a sink that does not fail. -/
def tickChannelOk (maxAngle : ℚ) (inc : List ℚ) : Exec → ℕ → Exec :=
  chanStep (fun a i => a + inc.getD i 0) (fun a i => clamp maxAngle (a + inc.getD i 0))

/-- The snap-loop body against a sink that does not fail. -/
def snapChannelOk (t : ℚ) : Exec → ℕ → Exec :=
  chanStep (fun _ _ => t) (fun _ _ => t)

def tickAllOk (maxAngle : ℚ) (inc : List ℚ) (e : Exec) : Exec :=
  (List.range e.cur.length).foldl (tickChannelOk maxAngle inc) e

def runTicksOk (maxAngle : ℚ) (inc : List ℚ) : ℕ → Exec → Exec
  | 0, e => e
  | k + 1, e => runTicksOk maxAngle inc k (tickAllOk maxAngle inc e)

def snapAllOk (t : ℚ) (e : Exec) : Exec :=
  (List.range e.cur.length).foldl (snapChannelOk t) e

/-- The final execution record of a (failure-free, `step ≠ 0`) move. -/
def moveExec (maxAngle target : ℚ) (cur : List (Option ℚ)) (step : ℚ) : Exec :=
  snapAllOk (clamp maxAngle target)
    (runTicksOk maxAngle
      (increments (clamp maxAngle target) cur (numSteps (clamp maxAngle target) step cur))
      (numSteps (clamp maxAngle target) step cur).toNat ⟨cur, [], 0⟩)

/-- Indices below `m` whose tracker entry is not `None`. -/
def activeBelow (m : ℕ) (cur : List (Option ℚ)) : List ℕ :=
  (List.range m).filter (fun j => (cur.getD j none).isSome)

/-- All tracked (non-`None`) channel indices, in iteration order. -/
def activeIdx (cur : List (Option ℚ)) : List ℕ := activeBelow cur.length cur

def chanFold (upd wv : ℚ → ℕ → ℚ) (m : ℕ) (e : Exec) : Exec :=
  (List.range m).foldl (chanStep upd wv) e

/-- Book-keeping invariant of an execution record reached under sink oracle `f`:
every sink call made so far was recorded as a write, and none of them failed. -/
def Inv (f : ℕ → Bool) (e : Exec) : Prop :=
  e.writes.length = e.wcount ∧ ∀ m < e.wcount, f m = false

/-! ### Per-channel target mapping (spec-modelled) -/

/-- Modelled from the spec: the repository's second script — the request-driven
driver that accepts a per-channel mapping `channel → desiredAngle` (e.g. from a
web form) — is not under `src/`. Following §4.2 step 1: clamp every target angle
to `[0, actuationRange]`. -/
def clampTargets (maxAngle : ℚ) (targets : List ℚ) : List ℚ :=
  targets.map (clamp maxAngle)

/-- Modelled from the spec (§4.2 steps 2-3): `maxAbsDelta = max |target − current|`
over all channels of the request, `0` for an empty request. -/
def maxAbsDeltaM (cur targets : List ℚ) : ℚ :=
  (List.zipWith (fun c t => pyabs (t - c)) cur targets).foldl max 0

/-- Modelled from the spec (§4.2 step 4): `tickCount = floor(maxAbsDelta /
stepSize)` with a floor of `1`. -/
def tickCountM (maxAngle step : ℚ) (cur targets : List ℚ) : ℤ :=
  max 1 ⌊maxAbsDeltaM cur (clampTargets maxAngle targets) / step⌋

/-- Modelled from the spec (§4.2 step 5): per channel,
`perTickIncrement = delta / tickCount`. -/
def incrementsM (maxAngle step : ℚ) (cur targets : List ℚ) : List ℚ :=
  List.zipWith (fun c t => (t - c) / ((tickCountM maxAngle step cur targets : ℤ) : ℚ))
    cur (clampTargets maxAngle targets)

/-- Modelled from the spec (§4.3): one tick — for each channel,
`newAngle = state.get(channel) + perTickIncrement`, clamped to the valid range,
written back to the state. -/
def tickOnceM (maxAngle : ℚ) (cur inc : List ℚ) : List ℚ :=
  List.zipWith (fun c d => clamp maxAngle (c + d)) cur inc

/-- Modelled from the spec (§4.3): the tick loop, `k` iterations. -/
def runTicksM (maxAngle : ℚ) (inc : List ℚ) : ℕ → List ℚ → List ℚ
  | 0, cur => cur
  | k + 1, cur => runTicksM maxAngle inc k (tickOnceM maxAngle cur inc)

/-- Modelled from the spec (§4.3): run the full tick loop, then perform the final
exact-snap, which forces every channel's state to its clamped target. -/
def executeM (maxAngle step : ℚ) (cur targets : List ℚ) : List ℚ :=
  List.zipWith (fun _ t => t)
    (runTicksM maxAngle (incrementsM maxAngle step cur targets)
      (tickCountM maxAngle step cur targets).toNat cur)
    (clampTargets maxAngle targets)

/-! ### List helper lemmas -/

theorem getD_set_self {α : Type} (l : List α) (i : ℕ) (a d : α) (h : i < l.length) :
    (l.set i a).getD i d = a := by
  induction l generalizing i with
  | nil => simp at h
  | cons x xs ih =>
    cases i with
    | zero => rfl
    | succ n => simpa using ih n (by simpa using h)

theorem getD_set_ne {α : Type} (l : List α) (i j : ℕ) (a d : α) (h : i ≠ j) :
    (l.set i a).getD j d = l.getD j d := by
  induction l generalizing i j with
  | nil => simp
  | cons x xs ih =>
    cases i with
    | zero => cases j with
      | zero => exact absurd rfl h
      | succ m => simp
    | succ n => cases j with
      | zero => simp
      | succ m => simpa using ih n m (by omega)

theorem getD_of_length_le {α : Type} (l : List α) (i : ℕ) (d : α) (h : l.length ≤ i) :
    l.getD i d = d := by
  induction l generalizing i with
  | nil => simp [List.getD]
  | cons x xs ih =>
    cases i with
    | zero => simp at h
    | succ n => simpa using ih n (by simpa using h)

theorem lt_length_of_getD {l : List (Option ℚ)} {i : ℕ} {a : ℚ}
    (h : l.getD i none = some a) : i < l.length := by
  by_contra hc
  rw [getD_of_length_le l i none (by omega)] at h
  exact Option.noConfusion h

theorem getD_map {α β : Type} (f : α → β) (l : List α) (i : ℕ) (d : β) (d' : α)
    (h : i < l.length) : (l.map f).getD i d = f (l.getD i d') := by
  induction l generalizing i with
  | nil => simp at h
  | cons x xs ih =>
    cases i with
    | zero => rfl
    | succ n => simpa using ih n (by simpa using h)

/-! ### Pure (failure-free) executors and their relation to the `Except` model -/

theorem chanStep_none (upd wv : ℚ → ℕ → ℚ) {e : Exec} {i : ℕ}
    (h : e.cur.getD i none = none) : chanStep upd wv e i = e := by
  unfold chanStep
  rw [h]

theorem chanStep_some (upd wv : ℚ → ℕ → ℚ) {e : Exec} {i : ℕ} {a : ℚ}
    (h : e.cur.getD i none = some a) :
    chanStep upd wv e i
      = ⟨e.cur.set i (some (upd a i)), e.writes ++ [(i, wv a i)], e.wcount + 1⟩ := by
  unfold chanStep
  rw [h]

theorem tickChannel_noFail (maxAngle : ℚ) (inc : List ℚ) (e : Exec) (i : ℕ) :
    tickChannel maxAngle noFail inc e i = .ok (tickChannelOk maxAngle inc e i) := by
  unfold tickChannel tickChannelOk chanStep noFail
  cases e.cur.getD i none <;> simp

theorem snapChannel_noFail (t : ℚ) (e : Exec) (i : ℕ) :
    snapChannel t noFail e i = .ok (snapChannelOk t e i) := by
  unfold snapChannel snapChannelOk chanStep noFail
  cases e.cur.getD i none <;> simp

theorem foldlM_tick_noFail (maxAngle : ℚ) (inc : List ℚ) (L : List ℕ) (e : Exec) :
    L.foldlM (tickChannel maxAngle noFail inc) e
      = .ok (L.foldl (tickChannelOk maxAngle inc) e) := by
  induction L generalizing e with
  | nil => rfl
  | cons x xs ih =>
    simp only [List.foldlM, List.foldl, tickChannel_noFail]
    exact ih _

theorem foldlM_snap_noFail (t : ℚ) (L : List ℕ) (e : Exec) :
    L.foldlM (snapChannel t noFail) e = .ok (L.foldl (snapChannelOk t) e) := by
  induction L generalizing e with
  | nil => rfl
  | cons x xs ih =>
    simp only [List.foldlM, List.foldl, snapChannel_noFail]
    exact ih _

theorem tickAll_noFail (maxAngle : ℚ) (inc : List ℚ) (e : Exec) :
    tickAll maxAngle noFail inc e = .ok (tickAllOk maxAngle inc e) :=
  foldlM_tick_noFail maxAngle inc _ e

theorem snapAll_noFail (t : ℚ) (e : Exec) :
    snapAll t noFail e = .ok (snapAllOk t e) :=
  foldlM_snap_noFail t _ e

theorem runTicks_noFail (maxAngle : ℚ) (inc : List ℚ) (k : ℕ) (e : Exec) :
    runTicks maxAngle noFail inc k e = .ok (runTicksOk maxAngle inc k e) := by
  induction k generalizing e with
  | zero => rfl
  | succ m ih =>
    simp only [runTicks, runTicksOk, tickAll_noFail]
    exact ih _

theorem move_noFail (maxAngle target : ℚ) (cur : List (Option ℚ)) (step : ℚ)
    (h : step ≠ 0) :
    move_servos_smoothly maxAngle target cur step noFail
      = .ok (moveExec maxAngle target cur step) := by
  unfold move_servos_smoothly moveExec
  simp only [h, if_false, runTicks_noFail, snapAll_noFail]

/-! ### Characterization of the failure-free folds -/

theorem chanFold_succ (upd wv : ℚ → ℕ → ℚ) (m : ℕ) (e : Exec) :
    chanFold upd wv (m + 1) e = chanStep upd wv (chanFold upd wv m e) m := by
  unfold chanFold
  rw [List.range_succ, List.foldl_append]
  rfl

theorem chanFold_length (upd wv : ℚ → ℕ → ℚ) (m : ℕ) (e : Exec) :
    (chanFold upd wv m e).cur.length = e.cur.length := by
  induction m with
  | zero => rfl
  | succ m ih =>
    rw [chanFold_succ]
    cases hc : (chanFold upd wv m e).cur.getD m none with
    | none => rw [chanStep_none _ _ hc]; exact ih
    | some a => rw [chanStep_some _ _ hc]; simpa using ih

theorem chanFold_getD (upd wv : ℚ → ℕ → ℚ) (m : ℕ) (e : Exec) :
    ∀ j, (chanFold upd wv m e).cur.getD j none
      = if j < m then (e.cur.getD j none).map (fun a => upd a j)
        else e.cur.getD j none := by
  induction m with
  | zero => intro j; simp [chanFold]
  | succ m ih =>
    intro j
    rw [chanFold_succ]
    have hm : (chanFold upd wv m e).cur.getD m none = e.cur.getD m none := by
      rw [ih m]; simp
    cases hc : e.cur.getD m none with
    | none =>
      rw [chanStep_none _ _ (hm.trans hc), ih j]
      by_cases hj : j < m
      · rw [if_pos hj, if_pos (by omega)]
      · by_cases hj2 : j < m + 1
        · have hjm : j = m := by omega
          subst hjm
          rw [if_neg hj, if_pos hj2, hc]
          rfl
        · rw [if_neg hj, if_neg hj2]
    | some a =>
      rw [chanStep_some _ _ (hm.trans hc)]
      show ((chanFold upd wv m e).cur.set m (some (upd a m))).getD j none = _
      by_cases hj : j = m
      · rw [hj]
        have hlt : m < (chanFold upd wv m e).cur.length := by
          rw [chanFold_length]
          exact lt_length_of_getD hc
        rw [getD_set_self _ _ _ _ hlt, if_pos (by omega), hc]
        rfl
      · rw [getD_set_ne _ _ _ _ _ (fun hmj => hj hmj.symm), ih j]
        by_cases hj2 : j < m
        · rw [if_pos hj2, if_pos (by omega)]
        · rw [if_neg hj2, if_neg (by omega)]

theorem chanFold_writes (upd wv : ℚ → ℕ → ℚ) (m : ℕ) (e : Exec) :
    (chanFold upd wv m e).writes
      = e.writes ++ (activeBelow m e.cur).map
          (fun j => (j, wv ((e.cur.getD j none).getD 0) j)) := by
  induction m with
  | zero => simp [chanFold, activeBelow]
  | succ m ih =>
    rw [chanFold_succ]
    have hm : (chanFold upd wv m e).cur.getD m none = e.cur.getD m none := by
      rw [chanFold_getD]; simp
    cases hc : e.cur.getD m none with
    | none =>
      have hc2 : e.cur[m]?.getD none = none := by
        rw [← List.getD_eq_getElem?_getD]; exact hc
      rw [chanStep_none _ _ (hm.trans hc), ih]
      congr 1
      unfold activeBelow
      rw [List.range_succ, List.filter_append]
      simp [hc2]
    | some a =>
      have hc2 : e.cur[m]?.getD none = some a := by
        rw [← List.getD_eq_getElem?_getD]; exact hc
      rw [chanStep_some _ _ (hm.trans hc)]
      show (chanFold upd wv m e).writes ++ [(m, wv a m)] = _
      rw [ih]
      unfold activeBelow
      rw [List.range_succ, List.filter_append, List.map_append, ← List.append_assoc]
      simp [hc2]

/-! ### Tick and snap loop characterizations -/

theorem tickAllOk_def (maxAngle : ℚ) (inc : List ℚ) (e : Exec) :
    tickAllOk maxAngle inc e
      = chanFold (fun a i => a + inc.getD i 0)
          (fun a i => clamp maxAngle (a + inc.getD i 0)) e.cur.length e := rfl

theorem snapAllOk_def (t : ℚ) (e : Exec) :
    snapAllOk t e = chanFold (fun _ _ => t) (fun _ _ => t) e.cur.length e := rfl

theorem tickAllOk_length (maxAngle : ℚ) (inc : List ℚ) (e : Exec) :
    (tickAllOk maxAngle inc e).cur.length = e.cur.length := by
  rw [tickAllOk_def]; exact chanFold_length _ _ _ _

theorem tickAllOk_getD (maxAngle : ℚ) (inc : List ℚ) (e : Exec) (j : ℕ) :
    (tickAllOk maxAngle inc e).cur.getD j none
      = (e.cur.getD j none).map (fun a => a + inc.getD j 0) := by
  rw [tickAllOk_def, chanFold_getD]
  by_cases hj : j < e.cur.length
  · rw [if_pos hj]
  · rw [if_neg hj, getD_of_length_le _ _ _ (by omega)]
    rfl

theorem tickAllOk_writes (maxAngle : ℚ) (inc : List ℚ) (e : Exec) :
    (tickAllOk maxAngle inc e).writes
      = e.writes ++ (activeIdx e.cur).map
          (fun j => (j, clamp maxAngle (((e.cur.getD j none).getD 0) + inc.getD j 0))) := by
  rw [tickAllOk_def, chanFold_writes]
  rfl

theorem snapAllOk_length (t : ℚ) (e : Exec) :
    (snapAllOk t e).cur.length = e.cur.length := by
  rw [snapAllOk_def]; exact chanFold_length _ _ _ _

theorem snapAllOk_getD (t : ℚ) (e : Exec) (j : ℕ) :
    (snapAllOk t e).cur.getD j none = (e.cur.getD j none).map (fun _ => t) := by
  rw [snapAllOk_def, chanFold_getD]
  by_cases hj : j < e.cur.length
  · rw [if_pos hj]
  · rw [if_neg hj, getD_of_length_le _ _ _ (by omega)]
    rfl

theorem snapAllOk_writes (t : ℚ) (e : Exec) :
    (snapAllOk t e).writes = e.writes ++ (activeIdx e.cur).map (fun j => (j, t)) := by
  rw [snapAllOk_def, chanFold_writes]
  rfl

theorem runTicksOk_length (maxAngle : ℚ) (inc : List ℚ) (k : ℕ) (e : Exec) :
    (runTicksOk maxAngle inc k e).cur.length = e.cur.length := by
  induction k generalizing e with
  | zero => rfl
  | succ m ih =>
    show (runTicksOk maxAngle inc m (tickAllOk maxAngle inc e)).cur.length = _
    rw [ih, tickAllOk_length]

theorem runTicksOk_getD (maxAngle : ℚ) (inc : List ℚ) (k : ℕ) (e : Exec) (j : ℕ) :
    (runTicksOk maxAngle inc k e).cur.getD j none
      = (e.cur.getD j none).map (fun a => a + (k : ℚ) * inc.getD j 0) := by
  induction k generalizing e with
  | zero =>
    show e.cur.getD j none = _
    cases e.cur.getD j none <;> simp
  | succ m ih =>
    show (runTicksOk maxAngle inc m (tickAllOk maxAngle inc e)).cur.getD j none = _
    rw [ih, tickAllOk_getD]
    cases e.cur.getD j none with
    | none => rfl
    | some a =>
      simp only [Option.map_some']
      congr 1
      push_cast
      ring

theorem isSome_tickAllOk (maxAngle : ℚ) (inc : List ℚ) (e : Exec) (j : ℕ) :
    ((tickAllOk maxAngle inc e).cur.getD j none).isSome
      = ((e.cur.getD j none).isSome) := by
  rw [tickAllOk_getD]
  cases e.cur.getD j none <;> rfl

theorem activeIdx_tickAllOk (maxAngle : ℚ) (inc : List ℚ) (e : Exec) :
    activeIdx (tickAllOk maxAngle inc e).cur = activeIdx e.cur := by
  unfold activeIdx activeBelow
  rw [tickAllOk_length]
  apply List.filter_congr
  intro j hj
  rw [isSome_tickAllOk]

theorem runTicksOk_writes_mem (maxAngle : ℚ) (inc : List ℚ) (k : ℕ) (e : Exec) :
    ∀ w ∈ (runTicksOk maxAngle inc k e).writes,
      w ∈ e.writes ∨ w.1 ∈ activeIdx e.cur := by
  induction k generalizing e with
  | zero => intro w hw; exact Or.inl hw
  | succ m ih =>
    intro w hw
    have hw2 := ih (tickAllOk maxAngle inc e) w hw
    rw [activeIdx_tickAllOk] at hw2
    rcases hw2 with h2 | h2
    · rw [tickAllOk_writes] at h2
      rcases List.mem_append.mp h2 with h3 | h3
      · exact Or.inl h3
      · right
        obtain ⟨j, hj, hje⟩ := List.mem_map.mp h3
        rw [← hje]
        exact hj
    · exact Or.inr h2

/-! ### Determinism: a run that returns `.ok` coincides with the failure-free run -/

theorem tickChannel_ok_eq {maxAngle : ℚ} {f : ℕ → Bool} {inc : List ℚ} {e e₂ : Exec}
    {i : ℕ} (h : tickChannel maxAngle f inc e i = .ok e₂) :
    e₂ = tickChannelOk maxAngle inc e i := by
  unfold tickChannel at h
  unfold tickChannelOk
  cases hc : e.cur.getD i none with
  | none =>
    rw [chanStep_none _ _ hc]
    simp only [hc] at h
    exact (Except.ok.inj h).symm
  | some a =>
    rw [chanStep_some _ _ hc]
    simp only [hc] at h
    by_cases hf : f e.wcount = true
    · rw [if_pos hf] at h; cases h
    · rw [if_neg hf] at h
      exact (Except.ok.inj h).symm

theorem snapChannel_ok_eq {t : ℚ} {f : ℕ → Bool} {e e₂ : Exec} {i : ℕ}
    (h : snapChannel t f e i = .ok e₂) : e₂ = snapChannelOk t e i := by
  unfold snapChannel at h
  unfold snapChannelOk
  cases hc : e.cur.getD i none with
  | none =>
    rw [chanStep_none _ _ hc]
    simp only [hc] at h
    exact (Except.ok.inj h).symm
  | some a =>
    rw [chanStep_some _ _ hc]
    simp only [hc] at h
    by_cases hf : f e.wcount = true
    · rw [if_pos hf] at h; cases h
    · rw [if_neg hf] at h
      exact (Except.ok.inj h).symm

theorem foldlM_tick_ok_eq {maxAngle : ℚ} {f : ℕ → Bool} {inc : List ℚ}
    {L : List ℕ} {e e₂ : Exec}
    (h : L.foldlM (tickChannel maxAngle f inc) e = .ok e₂) :
    e₂ = L.foldl (tickChannelOk maxAngle inc) e := by
  induction L generalizing e with
  | nil => cases h; rfl
  | cons x xs ih =>
    simp only [List.foldlM] at h
    cases hx : tickChannel maxAngle f inc e x with
    | error p => rw [hx] at h; cases h
    | ok e₁ =>
      rw [hx] at h
      simp only [List.foldl]
      rw [← tickChannel_ok_eq hx]
      exact ih h

theorem foldlM_snap_ok_eq {t : ℚ} {f : ℕ → Bool} {L : List ℕ} {e e₂ : Exec}
    (h : L.foldlM (snapChannel t f) e = .ok e₂) :
    e₂ = L.foldl (snapChannelOk t) e := by
  induction L generalizing e with
  | nil => cases h; rfl
  | cons x xs ih =>
    simp only [List.foldlM] at h
    cases hx : snapChannel t f e x with
    | error p => rw [hx] at h; cases h
    | ok e₁ =>
      rw [hx] at h
      simp only [List.foldl]
      rw [← snapChannel_ok_eq hx]
      exact ih h

theorem tickAll_ok_eq {maxAngle : ℚ} {f : ℕ → Bool} {inc : List ℚ} {e e₂ : Exec}
    (h : tickAll maxAngle f inc e = .ok e₂) : e₂ = tickAllOk maxAngle inc e :=
  foldlM_tick_ok_eq h

theorem snapAll_ok_eq {t : ℚ} {f : ℕ → Bool} {e e₂ : Exec}
    (h : snapAll t f e = .ok e₂) : e₂ = snapAllOk t e :=
  foldlM_snap_ok_eq h

theorem runTicks_ok_eq {maxAngle : ℚ} {f : ℕ → Bool} {inc : List ℚ} {k : ℕ}
    {e e₂ : Exec} (h : runTicks maxAngle f inc k e = .ok e₂) :
    e₂ = runTicksOk maxAngle inc k e := by
  induction k generalizing e with
  | zero => cases h; rfl
  | succ m ih =>
    simp only [runTicks] at h
    cases hx : tickAll maxAngle f inc e with
    | error p => rw [hx] at h; cases h
    | ok e₁ =>
      rw [hx] at h
      simp only [runTicksOk]
      rw [show tickAllOk maxAngle inc e = e₁ from (foldlM_tick_ok_eq hx).symm]
      exact ih h

theorem move_ok_eq {maxAngle target : ℚ} {cur : List (Option ℚ)} {step : ℚ}
    {f : ℕ → Bool} {e : Exec}
    (h : move_servos_smoothly maxAngle target cur step f = .ok e) :
    step ≠ 0 ∧ e = moveExec maxAngle target cur step := by
  unfold move_servos_smoothly at h
  by_cases hs : step = 0
  · simp [hs] at h
  · refine ⟨hs, ?_⟩
    rw [if_neg hs] at h
    cases hx : runTicks maxAngle f
        (increments (clamp maxAngle target) cur
          (numSteps (clamp maxAngle target) step cur))
        (numSteps (clamp maxAngle target) step cur).toNat ⟨cur, [], 0⟩ with
    | error p =>
      obtain ⟨c, e'⟩ := p
      simp [hx] at h
    | ok e₁ =>
      cases hy : snapAll (clamp maxAngle target) f e₁ with
      | error p =>
        obtain ⟨c, e'⟩ := p
        simp [hx, hy] at h
      | ok e₂ =>
        simp only [hx, hy, MoveResult.ok.injEq] at h
        rw [← h]
        unfold moveExec
        rw [snapAll_ok_eq hy, runTicks_ok_eq hx]

/-! ### Failure analysis: what a run looks like when the sink raises -/

theorem tickChannel_err {maxAngle : ℚ} {f : ℕ → Bool} {inc : List ℚ} {e : Exec}
    {i : ℕ} {p : ℕ × Exec} (h : tickChannel maxAngle f inc e i = .error p) :
    p.2 = e ∧ f e.wcount = true := by
  unfold tickChannel at h
  cases hc : e.cur.getD i none with
  | none => simp only [hc] at h; cases h
  | some a =>
    simp only [hc] at h
    by_cases hf : f e.wcount = true
    · rw [if_pos hf] at h
      exact ⟨congrArg Prod.snd (Except.error.inj h).symm, hf⟩
    · rw [if_neg hf] at h; cases h

theorem snapChannel_err {t : ℚ} {f : ℕ → Bool} {e : Exec} {i : ℕ} {p : ℕ × Exec}
    (h : snapChannel t f e i = .error p) : p.2 = e ∧ f e.wcount = true := by
  unfold snapChannel at h
  cases hc : e.cur.getD i none with
  | none => simp only [hc] at h; cases h
  | some a =>
    simp only [hc] at h
    by_cases hf : f e.wcount = true
    · rw [if_pos hf] at h
      exact ⟨congrArg Prod.snd (Except.error.inj h).symm, hf⟩
    · rw [if_neg hf] at h; cases h

theorem tickChannel_inv {maxAngle : ℚ} {f : ℕ → Bool} {inc : List ℚ} {e e' : Exec}
    {i : ℕ} (hI : Inv f e) (h : tickChannel maxAngle f inc e i = .ok e') :
    Inv f e' := by
  unfold tickChannel at h
  cases hc : e.cur.getD i none with
  | none => simp only [hc] at h; cases h; exact hI
  | some a =>
    simp only [hc] at h
    by_cases hf : f e.wcount = true
    · rw [if_pos hf] at h; cases h
    · rw [if_neg hf] at h
      cases h
      refine ⟨by simpa using hI.1, ?_⟩
      intro m hm
      rcases Nat.lt_succ_iff_lt_or_eq.mp hm with hm2 | hm2
      · exact hI.2 m hm2
      · rw [hm2]
        exact Bool.not_eq_true _ |>.mp hf

theorem snapChannel_inv {t : ℚ} {f : ℕ → Bool} {e e' : Exec} {i : ℕ}
    (hI : Inv f e) (h : snapChannel t f e i = .ok e') : Inv f e' := by
  unfold snapChannel at h
  cases hc : e.cur.getD i none with
  | none => simp only [hc] at h; cases h; exact hI
  | some a =>
    simp only [hc] at h
    by_cases hf : f e.wcount = true
    · rw [if_pos hf] at h; cases h
    · rw [if_neg hf] at h
      cases h
      refine ⟨by simpa using hI.1, ?_⟩
      intro m hm
      rcases Nat.lt_succ_iff_lt_or_eq.mp hm with hm2 | hm2
      · exact hI.2 m hm2
      · rw [hm2]
        exact Bool.not_eq_true _ |>.mp hf

theorem tickFold_inv {maxAngle : ℚ} {f : ℕ → Bool} {inc : List ℚ} {L : List ℕ}
    {e e' : Exec} (hI : Inv f e)
    (h : L.foldlM (tickChannel maxAngle f inc) e = .ok e') : Inv f e' := by
  induction L generalizing e with
  | nil => cases h; exact hI
  | cons x xs ih =>
    simp only [List.foldlM] at h
    cases hx : tickChannel maxAngle f inc e x with
    | error p => rw [hx] at h; cases h
    | ok e₁ =>
      rw [hx] at h
      exact ih (tickChannel_inv hI hx) h

theorem snapFold_inv {t : ℚ} {f : ℕ → Bool} {L : List ℕ} {e e' : Exec}
    (hI : Inv f e) (h : L.foldlM (snapChannel t f) e = .ok e') : Inv f e' := by
  induction L generalizing e with
  | nil => cases h; exact hI
  | cons x xs ih =>
    simp only [List.foldlM] at h
    cases hx : snapChannel t f e x with
    | error p => rw [hx] at h; cases h
    | ok e₁ =>
      rw [hx] at h
      exact ih (snapChannel_inv hI hx) h

theorem tickFold_err {maxAngle : ℚ} {f : ℕ → Bool} {inc : List ℚ} {L : List ℕ}
    {e : Exec} {p : ℕ × Exec} (hI : Inv f e)
    (h : L.foldlM (tickChannel maxAngle f inc) e = .error p) :
    Inv f p.2 ∧ f p.2.wcount = true := by
  induction L generalizing e with
  | nil => cases h
  | cons x xs ih =>
    simp only [List.foldlM] at h
    cases hx : tickChannel maxAngle f inc e x with
    | error q =>
      rw [hx] at h
      cases h
      obtain ⟨he, hf⟩ := tickChannel_err hx
      rw [he]
      exact ⟨hI, hf⟩
    | ok e₁ =>
      rw [hx] at h
      exact ih (tickChannel_inv hI hx) h

theorem snapFold_err {t : ℚ} {f : ℕ → Bool} {L : List ℕ} {e : Exec} {p : ℕ × Exec}
    (hI : Inv f e) (h : L.foldlM (snapChannel t f) e = .error p) :
    Inv f p.2 ∧ f p.2.wcount = true := by
  induction L generalizing e with
  | nil => cases h
  | cons x xs ih =>
    simp only [List.foldlM] at h
    cases hx : snapChannel t f e x with
    | error q =>
      rw [hx] at h
      cases h
      obtain ⟨he, hf⟩ := snapChannel_err hx
      rw [he]
      exact ⟨hI, hf⟩
    | ok e₁ =>
      rw [hx] at h
      exact ih (snapChannel_inv hI hx) h

theorem runTicks_inv {maxAngle : ℚ} {f : ℕ → Bool} {inc : List ℚ} {k : ℕ}
    {e e' : Exec} (hI : Inv f e) (h : runTicks maxAngle f inc k e = .ok e') :
    Inv f e' := by
  induction k generalizing e with
  | zero => cases h; exact hI
  | succ m ih =>
    simp only [runTicks] at h
    cases hx : tickAll maxAngle f inc e with
    | error p => rw [hx] at h; cases h
    | ok e₁ =>
      rw [hx] at h
      exact ih (tickFold_inv hI hx) h

theorem runTicks_err {maxAngle : ℚ} {f : ℕ → Bool} {inc : List ℚ} {k : ℕ}
    {e : Exec} {p : ℕ × Exec} (hI : Inv f e)
    (h : runTicks maxAngle f inc k e = .error p) :
    Inv f p.2 ∧ f p.2.wcount = true := by
  induction k generalizing e with
  | zero => cases h
  | succ m ih =>
    simp only [runTicks] at h
    cases hx : tickAll maxAngle f inc e with
    | error q =>
      rw [hx] at h
      cases h
      exact tickFold_err hI hx
    | ok e₁ =>
      rw [hx] at h
      exact ih (tickFold_inv hI hx) h

theorem move_err {maxAngle target : ℚ} {cur : List (Option ℚ)} {step : ℚ}
    {f : ℕ → Bool} {c : ℕ} {e : Exec}
    (h : move_servos_smoothly maxAngle target cur step f = .hardwareError c e) :
    step ≠ 0 ∧ Inv f e ∧ f e.wcount = true := by
  unfold move_servos_smoothly at h
  by_cases hs : step = 0
  · rw [if_pos hs] at h; cases h
  · refine ⟨hs, ?_⟩
    rw [if_neg hs] at h
    have hI0 : Inv f ⟨cur, [], 0⟩ := ⟨rfl, fun m hm => absurd hm (Nat.not_lt_zero m)⟩
    cases hx : runTicks maxAngle f
        (increments (clamp maxAngle target) cur
          (numSteps (clamp maxAngle target) step cur))
        (numSteps (clamp maxAngle target) step cur).toNat ⟨cur, [], 0⟩ with
    | error p =>
      obtain ⟨c', e'⟩ := p
      simp only [hx, MoveResult.hardwareError.injEq] at h
      obtain ⟨he, hf⟩ := runTicks_err hI0 hx
      rw [← h.2]
      exact ⟨he, hf⟩
    | ok e₁ =>
      cases hy : snapAll (clamp maxAngle target) f e₁ with
      | error p =>
        obtain ⟨c', e'⟩ := p
        simp only [hx, hy, MoveResult.hardwareError.injEq] at h
        obtain ⟨he, hf⟩ := snapFold_err (runTicks_inv hI0 hx) hy
        rw [← h.2]
        exact ⟨he, hf⟩
      | ok e₂ =>
        simp only [hx, hy] at h
        cases h

/-! ### The failing run performs an initial segment of the failure-free run -/

theorem chanStep_writes_ext (upd wv : ℚ → ℕ → ℚ) (e : Exec) (i : ℕ) :
    ∃ w, (chanStep upd wv e i).writes = e.writes ++ w := by
  cases hc : e.cur.getD i none with
  | none => exact ⟨[], by rw [chanStep_none _ _ hc]; simp⟩
  | some a => exact ⟨[(i, wv a i)], by rw [chanStep_some _ _ hc]⟩

theorem fold_writes_ext (g : Exec → ℕ → Exec)
    (hg : ∀ e i, ∃ w, (g e i).writes = e.writes ++ w) :
    ∀ (L : List ℕ) (e : Exec), ∃ w, (L.foldl g e).writes = e.writes ++ w := by
  intro L
  induction L with
  | nil => intro e; exact ⟨[], by simp⟩
  | cons x xs ih =>
    intro e
    obtain ⟨w₁, hw₁⟩ := hg e x
    obtain ⟨w₂, hw₂⟩ := ih (g e x)
    refine ⟨w₁ ++ w₂, ?_⟩
    simp only [List.foldl]
    rw [hw₂, hw₁, List.append_assoc]

theorem tickChannelOk_writes_ext (maxAngle : ℚ) (inc : List ℚ) (e : Exec) (i : ℕ) :
    ∃ w, (tickChannelOk maxAngle inc e i).writes = e.writes ++ w :=
  chanStep_writes_ext _ _ e i

theorem snapChannelOk_writes_ext (t : ℚ) (e : Exec) (i : ℕ) :
    ∃ w, (snapChannelOk t e i).writes = e.writes ++ w :=
  chanStep_writes_ext _ _ e i

theorem tickAllOk_writes_ext (maxAngle : ℚ) (inc : List ℚ) (e : Exec) :
    ∃ w, (tickAllOk maxAngle inc e).writes = e.writes ++ w :=
  fold_writes_ext _ (tickChannelOk_writes_ext maxAngle inc) _ e

theorem snapAllOk_writes_ext (t : ℚ) (e : Exec) :
    ∃ w, (snapAllOk t e).writes = e.writes ++ w :=
  fold_writes_ext _ (snapChannelOk_writes_ext t) _ e

theorem runTicksOk_writes_ext (maxAngle : ℚ) (inc : List ℚ) (k : ℕ) (e : Exec) :
    ∃ w, (runTicksOk maxAngle inc k e).writes = e.writes ++ w := by
  induction k generalizing e with
  | zero => exact ⟨[], by simp [runTicksOk]⟩
  | succ m ih =>
    obtain ⟨w₁, hw₁⟩ := tickAllOk_writes_ext maxAngle inc e
    obtain ⟨w₂, hw₂⟩ := ih (tickAllOk maxAngle inc e)
    refine ⟨w₁ ++ w₂, ?_⟩
    show (runTicksOk maxAngle inc m (tickAllOk maxAngle inc e)).writes = _
    rw [hw₂, hw₁, List.append_assoc]

theorem tickFold_err_writes {maxAngle : ℚ} {f : ℕ → Bool} {inc : List ℚ}
    {L : List ℕ} {e : Exec} {p : ℕ × Exec}
    (h : L.foldlM (tickChannel maxAngle f inc) e = .error p) :
    ∃ w, (L.foldl (tickChannelOk maxAngle inc) e).writes = p.2.writes ++ w := by
  induction L generalizing e with
  | nil => cases h
  | cons x xs ih =>
    simp only [List.foldlM] at h
    cases hx : tickChannel maxAngle f inc e x with
    | error q =>
      rw [hx] at h
      cases h
      obtain ⟨he, _⟩ := tickChannel_err hx
      obtain ⟨w₁, hw₁⟩ := tickChannelOk_writes_ext maxAngle inc e x
      obtain ⟨w₂, hw₂⟩ := fold_writes_ext _ (tickChannelOk_writes_ext maxAngle inc)
        xs (tickChannelOk maxAngle inc e x)
      refine ⟨w₁ ++ w₂, ?_⟩
      simp only [List.foldl]
      rw [hw₂, hw₁, he, List.append_assoc]
    | ok e₁ =>
      rw [hx] at h
      obtain ⟨w, hw⟩ := ih h
      refine ⟨w, ?_⟩
      simp only [List.foldl]
      rw [← tickChannel_ok_eq hx]
      exact hw

theorem snapFold_err_writes {t : ℚ} {f : ℕ → Bool} {L : List ℕ} {e : Exec}
    {p : ℕ × Exec} (h : L.foldlM (snapChannel t f) e = .error p) :
    ∃ w, (L.foldl (snapChannelOk t) e).writes = p.2.writes ++ w := by
  induction L generalizing e with
  | nil => cases h
  | cons x xs ih =>
    simp only [List.foldlM] at h
    cases hx : snapChannel t f e x with
    | error q =>
      rw [hx] at h
      cases h
      obtain ⟨he, _⟩ := snapChannel_err hx
      obtain ⟨w₁, hw₁⟩ := snapChannelOk_writes_ext t e x
      obtain ⟨w₂, hw₂⟩ := fold_writes_ext _ (snapChannelOk_writes_ext t)
        xs (snapChannelOk t e x)
      refine ⟨w₁ ++ w₂, ?_⟩
      simp only [List.foldl]
      rw [hw₂, hw₁, he, List.append_assoc]
    | ok e₁ =>
      rw [hx] at h
      obtain ⟨w, hw⟩ := ih h
      refine ⟨w, ?_⟩
      simp only [List.foldl]
      rw [← snapChannel_ok_eq hx]
      exact hw

theorem runTicks_err_writes {maxAngle : ℚ} {f : ℕ → Bool} {inc : List ℚ} {k : ℕ}
    {e : Exec} {p : ℕ × Exec} (h : runTicks maxAngle f inc k e = .error p) :
    ∃ w, (runTicksOk maxAngle inc k e).writes = p.2.writes ++ w := by
  induction k generalizing e with
  | zero => cases h
  | succ m ih =>
    simp only [runTicks] at h
    cases hx : tickAll maxAngle f inc e with
    | error q =>
      rw [hx] at h
      cases h
      obtain ⟨w₁, hw₁⟩ := tickFold_err_writes hx
      obtain ⟨w₂, hw₂⟩ := runTicksOk_writes_ext maxAngle inc m (tickAllOk maxAngle inc e)
      refine ⟨w₁ ++ w₂, ?_⟩
      show (runTicksOk maxAngle inc m (tickAllOk maxAngle inc e)).writes = _
      rw [hw₂]
      show (tickAllOk maxAngle inc e).writes ++ w₂ = _
      rw [show (tickAllOk maxAngle inc e).writes = p.2.writes ++ w₁ from hw₁,
        List.append_assoc]
    | ok e₁ =>
      rw [hx] at h
      obtain ⟨w, hw⟩ := ih h
      refine ⟨w, ?_⟩
      rw [show runTicksOk maxAngle inc (m + 1) e
            = runTicksOk maxAngle inc m (tickAllOk maxAngle inc e) from rfl,
        show tickAllOk maxAngle inc e = e₁ from (tickAll_ok_eq hx).symm]
      exact hw

theorem move_err_writes {maxAngle target : ℚ} {cur : List (Option ℚ)} {step : ℚ}
    {f : ℕ → Bool} {c : ℕ} {e : Exec}
    (h : move_servos_smoothly maxAngle target cur step f = .hardwareError c e) :
    ∃ w, (moveExec maxAngle target cur step).writes = e.writes ++ w := by
  unfold move_servos_smoothly at h
  by_cases hs : step = 0
  · rw [if_pos hs] at h; cases h
  · rw [if_neg hs] at h
    cases hx : runTicks maxAngle f
        (increments (clamp maxAngle target) cur
          (numSteps (clamp maxAngle target) step cur))
        (numSteps (clamp maxAngle target) step cur).toNat ⟨cur, [], 0⟩ with
    | error p =>
      obtain ⟨c', e'⟩ := p
      simp only [hx, MoveResult.hardwareError.injEq] at h
      obtain ⟨w₁, hw₁⟩ := runTicks_err_writes hx
      obtain ⟨w₂, hw₂⟩ := snapAllOk_writes_ext (clamp maxAngle target)
        (runTicksOk maxAngle
          (increments (clamp maxAngle target) cur
            (numSteps (clamp maxAngle target) step cur))
          (numSteps (clamp maxAngle target) step cur).toNat ⟨cur, [], 0⟩)
      refine ⟨w₁ ++ w₂, ?_⟩
      unfold moveExec
      rw [hw₂, hw₁, ← h.2, List.append_assoc]
    | ok e₁ =>
      cases hy : snapAll (clamp maxAngle target) f e₁ with
      | error p =>
        obtain ⟨c', e'⟩ := p
        simp only [hx, hy, MoveResult.hardwareError.injEq] at h
        obtain ⟨w, hw⟩ := snapFold_err_writes hy
        refine ⟨w, ?_⟩
        unfold moveExec
        rw [← runTicks_ok_eq hx]
        rw [show (snapAllOk (clamp maxAngle target) e₁).writes
              = ((List.range e₁.cur.length).foldl
                  (snapChannelOk (clamp maxAngle target)) e₁).writes from rfl]
        rw [hw, h.2]
      | ok e₂ =>
        simp only [hx, hy] at h
        cases h

/-! ### Arithmetic facts about the plan computation -/

theorem pyInt_eq_floor {q : ℚ} (h : 0 ≤ q) : pyInt q = ⌊q⌋ := by
  unfold pyInt
  rw [Int.tdiv_eq_ediv (Rat.num_nonneg.mpr h) (Int.natCast_nonneg _)]
  exact Rat.floor_def.symm

theorem pyInt_nonneg {q : ℚ} (h : 0 ≤ q) : 0 ≤ pyInt q :=
  Int.tdiv_nonneg (Rat.num_nonneg.mpr h) (Int.natCast_nonneg _)

theorem maxDelta_nonneg (t : ℚ) (cur : List (Option ℚ)) : 0 ≤ maxDelta t cur := by
  unfold maxDelta
  have h : ∀ (l : List (Option ℚ)) (m : ℚ), 0 ≤ m →
      0 ≤ l.foldl (fun m c => match c with
        | some a => max m (pyabs (t - a)) | none => m) m := by
    intro l
    induction l with
    | nil => intro m hm; exact hm
    | cons c cs ih =>
      intro m hm
      cases c with
      | none => exact ih m hm
      | some a => exact ih _ (le_trans hm (le_max_left _ _))
  exact h cur 0 le_rfl

theorem numSteps_eq_max (t step : ℚ) (cur : List (Option ℚ)) (h : 0 < step) :
    numSteps t step cur = max 1 ⌊maxDelta t cur / step⌋ := by
  have hq : 0 ≤ maxDelta t cur / step := div_nonneg (maxDelta_nonneg t cur) h.le
  unfold numSteps
  rw [pyInt_eq_floor hq]
  have hfl : 0 ≤ ⌊maxDelta t cur / step⌋ := Int.floor_nonneg.mpr hq
  by_cases h0 : ⌊maxDelta t cur / step⌋ = 0
  · rw [if_pos h0, h0]
    exact (max_eq_left (by norm_num)).symm
  · rw [if_neg h0]
    omega

theorem numSteps_pos (t step : ℚ) (cur : List (Option ℚ)) (h : 0 < step) :
    1 ≤ numSteps t step cur := by
  rw [numSteps_eq_max t step cur h]
  exact le_max_left _ _

theorem numSteps_toNat_cast (t step : ℚ) (cur : List (Option ℚ)) (h : 0 < step) :
    (((numSteps t step cur).toNat : ℕ) : ℚ) = ((numSteps t step cur : ℤ) : ℚ) := by
  have := numSteps_pos t step cur h
  rw [show (((numSteps t step cur).toNat : ℕ) : ℚ)
      = (((numSteps t step cur).toNat : ℤ) : ℚ) by push_cast; ring]
  rw [Int.toNat_of_nonneg (by omega)]

theorem increments_getD {t : ℚ} {cur : List (Option ℚ)} {n : ℤ} {j : ℕ} {a : ℚ}
    (h : cur.getD j none = some a) :
    (increments t cur n).getD j 0 = (t - a) / ((n : ℤ) : ℚ) := by
  unfold increments
  rw [getD_map _ _ _ _ none (lt_length_of_getD h), h]

theorem increments_getD_none {t : ℚ} {cur : List (Option ℚ)} {n : ℤ} {j : ℕ}
    (h : cur.getD j none = none) : (increments t cur n).getD j 0 = 0 := by
  unfold increments
  by_cases hj : j < cur.length
  · rw [getD_map _ _ _ _ none hj, h]
  · rw [getD_of_length_le _ _ _ (by simpa using Nat.le_of_not_lt hj)]

/-! ### The tick-loop state after `k` ticks -/

theorem tickStateAfter_eq (maxAngle target : ℚ) (cur : List (Option ℚ)) (step : ℚ)
    (k : ℕ) :
    tickStateAfter maxAngle target cur step k
      = (runTicksOk maxAngle
          (increments (clamp maxAngle target) cur
            (numSteps (clamp maxAngle target) step cur)) k ⟨cur, [], 0⟩).cur := by
  unfold tickStateAfter
  rw [runTicks_noFail]

theorem tickStateAfter_getD (maxAngle target : ℚ) (cur : List (Option ℚ)) (step : ℚ)
    (k j : ℕ) :
    (tickStateAfter maxAngle target cur step k).getD j none
      = (cur.getD j none).map (fun a => a
          + (k : ℚ) * ((increments (clamp maxAngle target) cur
              (numSteps (clamp maxAngle target) step cur)).getD j 0)) := by
  rw [tickStateAfter_eq, runTicksOk_getD]

/-! ### Final state of a completed move -/

theorem moveExec_getD {maxAngle target : ℚ} {cur : List (Option ℚ)} {step : ℚ}
    {j : ℕ} {a : ℚ} (h : cur.getD j none = some a) :
    (moveExec maxAngle target cur step).cur.getD j none
      = some (clamp maxAngle target) := by
  unfold moveExec
  rw [snapAllOk_getD, runTicksOk_getD]
  show ((cur.getD j none).map _).map _ = _
  rw [h]
  rfl

/-- The tracked angle of channel `i` after `k` ticks: the exact linear
interpolation formula. -/
theorem tickState_linear (maxAngle target : ℚ) (cur : List (Option ℚ)) (step : ℚ)
    {i : ℕ} {a : ℚ} (hi : cur.getD i none = some a) (k : ℕ) :
    (tickStateAfter maxAngle target cur step k).getD i none
      = some (a + (k : ℚ) * ((clamp maxAngle target - a)
          / ((numSteps (clamp maxAngle target) step cur : ℤ) : ℚ))) := by
  rw [tickStateAfter_getD, hi, Option.map_some', increments_getD hi]

/-! ### More helper lemmas -/

theorem mem_of_getD {l : List (Option ℚ)} {j : ℕ} {a : ℚ}
    (h : l.getD j none = some a) : some a ∈ l := by
  rw [List.getD_eq_getElem?_getD] at h
  cases hlj : l[j]? with
  | none => rw [hlj] at h; cases h
  | some o =>
    rw [hlj] at h
    have ho : o = some a := h
    exact ho ▸ List.getElem?_mem hlj

theorem clamp_nonneg (maxAngle x : ℚ) : 0 ≤ clamp maxAngle x := le_max_left _ _

theorem clamp_le (maxAngle x : ℚ) (hM : 0 ≤ maxAngle) : clamp maxAngle x ≤ maxAngle :=
  max_le hM (min_le_left _ _)

theorem toNat_cast_of_pos {n : ℤ} (h : 1 ≤ n) : ((n.toNat : ℕ) : ℚ) = (n : ℚ) := by
  rw [show ((n.toNat : ℕ) : ℚ) = ((n.toNat : ℤ) : ℚ) by push_cast; ring,
    Int.toNat_of_nonneg (by omega)]

/-- Convexity of the interpolation formula: after `k ≤ n` equal steps the value
stays between the two endpoints. -/
theorem interp_bounds (a t n : ℚ) (k : ℕ) (hn : 1 ≤ n) (hkn : (k : ℚ) ≤ n) :
    min a t ≤ a + (k : ℚ) * ((t - a) / n)
    ∧ a + (k : ℚ) * ((t - a) / n) ≤ max a t := by
  have hn0 : (0 : ℚ) < n := by linarith
  have hq : n * ((t - a) / n) = t - a := by
    rw [mul_comm, div_mul_cancel₀ _ (ne_of_gt hn0)]
  constructor
  · rcases le_total a t with hat | hat
    · rw [min_eq_left hat]
      have hsub : (0 : ℚ) ≤ t - a := by linarith
      have h0 : 0 ≤ (k : ℚ) * ((t - a) / n) :=
        mul_nonneg (Nat.cast_nonneg k) (div_nonneg hsub hn0.le)
      linarith
    · rw [min_eq_right hat]
      have hsub : t - a ≤ (0 : ℚ) := by linarith
      have hq0 : (t - a) / n ≤ 0 := div_nonpos_of_nonpos_of_nonneg hsub hn0.le
      have h1 := mul_le_mul_of_nonpos_right hkn hq0
      linarith
  · rcases le_total a t with hat | hat
    · rw [max_eq_right hat]
      have hsub : (0 : ℚ) ≤ t - a := by linarith
      have h1 := mul_le_mul_of_nonneg_right hkn (div_nonneg hsub hn0.le)
      linarith
    · rw [max_eq_left hat]
      have hsub : t - a ≤ (0 : ℚ) := by linarith
      have hq0 : (t - a) / n ≤ 0 := div_nonpos_of_nonpos_of_nonneg hsub hn0.le
      have h0 : (k : ℚ) * ((t - a) / n) ≤ 0 :=
        mul_nonpos_iff.mpr (Or.inl ⟨Nat.cast_nonneg k, hq0⟩)
      linarith

theorem list_ext_getD {l₁ l₂ : List (Option ℚ)} (hlen : l₁.length = l₂.length)
    (h : ∀ j, l₁.getD j none = l₂.getD j none) : l₁ = l₂ := by
  apply List.ext_getElem?
  intro j
  by_cases hj : j < l₁.length
  · have hj2 : j < l₂.length := hlen ▸ hj
    have hje := h j
    rw [List.getD_eq_getElem?_getD, List.getD_eq_getElem?_getD,
      List.getElem?_eq_getElem hj, List.getElem?_eq_getElem hj2] at hje
    rw [List.getElem?_eq_getElem hj, List.getElem?_eq_getElem hj2]
    simpa using hje
  · rw [List.getElem?_eq_none (Nat.le_of_not_lt hj),
      List.getElem?_eq_none (by omega)]

theorem maxDelta_eq_zero {t : ℚ} {cur : List (Option ℚ)}
    (h : ∀ o ∈ cur, ∀ x : ℚ, o = some x → x = t) : maxDelta t cur = 0 := by
  unfold maxDelta
  induction cur with
  | nil => rfl
  | cons c cs ih =>
    rw [List.foldl_cons]
    have htail := ih (fun o ho x hx => h o (List.mem_cons_of_mem c ho) x hx)
    cases c with
    | none => exact htail
    | some a =>
      have ha : a = t := h (some a) (List.mem_cons_self _ _) a rfl
      have hstep : max (0 : ℚ) (pyabs (t - a)) = 0 := by
        rw [ha, sub_self]
        norm_num [pyabs]
      show List.foldl _ (max (0 : ℚ) (pyabs (t - a))) cs = 0
      rw [hstep]
      exact htail

theorem maxDelta_eraseIdx {t : ℚ} {cur : List (Option ℚ)} {i : ℕ}
    (h : cur.getD i none = none) :
    maxDelta t (cur.eraseIdx i) = maxDelta t cur := by
  unfold maxDelta
  suffices H : ∀ (l : List (Option ℚ)) (i : ℕ), l.getD i none = none → ∀ m : ℚ,
      (l.eraseIdx i).foldl (fun m c => match c with
        | some a => max m (pyabs (t - a)) | none => m) m
      = l.foldl (fun m c => match c with
        | some a => max m (pyabs (t - a)) | none => m) m from H cur i h 0
  intro l
  induction l with
  | nil => intro i h m; rfl
  | cons c cs ih =>
    intro i h m
    cases i with
    | zero =>
      have hc : c = none := by simpa using h
      rw [hc]
      rfl
    | succ n =>
      have h2 : cs.getD n none = none := by simpa using h
      show ((c :: cs.eraseIdx n).foldl _ m) = _
      rw [List.foldl_cons, List.foldl_cons]
      exact ih n h2 _

theorem mem_activeIdx_isSome {cur : List (Option ℚ)} {j : ℕ}
    (h : j ∈ activeIdx cur) : (cur.getD j none).isSome = true :=
  (List.mem_filter.mp h).2

theorem activeIdx_runTicksOk (maxAngle : ℚ) (inc : List ℚ) (k : ℕ) (e : Exec) :
    activeIdx (runTicksOk maxAngle inc k e).cur = activeIdx e.cur := by
  induction k generalizing e with
  | zero => rfl
  | succ m ih =>
    show activeIdx (runTicksOk maxAngle inc m (tickAllOk maxAngle inc e)).cur = _
    rw [ih, activeIdx_tickAllOk]

theorem runTicksOk_writes_val (maxAngle : ℚ) (inc : List ℚ) (k : ℕ) (e : Exec) :
    ∀ w ∈ (runTicksOk maxAngle inc k e).writes,
      w ∈ e.writes ∨ ∃ v, w.2 = clamp maxAngle v := by
  induction k generalizing e with
  | zero => intro w hw; exact Or.inl hw
  | succ m ih =>
    intro w hw
    rcases ih (tickAllOk maxAngle inc e) w hw with h2 | h2
    · rw [tickAllOk_writes] at h2
      rcases List.mem_append.mp h2 with h3 | h3
      · exact Or.inl h3
      · right
        obtain ⟨j, hj, hje⟩ := List.mem_map.mp h3
        exact ⟨_, by rw [← hje]⟩
    · exact Or.inr h2

/-! ### Claim theorems -/

/-- Claim C1: for every actuation range, target (also out of range), step and channel
set, after a completed (non-failed) execution of `move_servos_smoothly`, the tracked
current angle of every channel in the plan (every non-`None` entry) equals
`clamp(target, 0, maxAngle)` exactly: the final exact-snap (lines 124-127) forces
both the state entry and the sink write to the clamped target. -/
theorem C1_final_state_is_clamped_target
    (maxAngle target : ℚ) (cur : List (Option ℚ)) (step : ℚ) (f : ℕ → Bool)
    (e : Exec) (i : ℕ) (a : ℚ)
    (hok : move_servos_smoothly maxAngle target cur step f = .ok e)
    (hi : cur.getD i none = some a) :
    e.cur.getD i none = some (clamp maxAngle target) := by
  obtain ⟨-, he⟩ := move_ok_eq hok
  rw [he]
  exact moveExec_getD hi

/-- Witness for C1 at a concrete out-of-range input: requested target `200` with
actuation range `180` ends at exactly `180`. -/
theorem C1_final_state_is_clamped_target_witness :
    move_servos_smoothly 180 200 [some 170] 10 noFail
        = .ok ⟨[some 180], [(0, 180), (0, 180)], 2⟩
    ∧ (Exec.cur ⟨[some 180], [(0, 180), (0, 180)], 2⟩).getD 0 none
        = some (clamp 180 200) :=
  ⟨by decide,
    C1_final_state_is_clamped_target 180 200 [some 170] 10 noFail
      ⟨[some 180], [(0, 180), (0, 180)], 2⟩ 0 170 (by decide) (by decide)⟩

/-- Claim C3: for `step > 0` the tick count is `max 1 ⌊maxDelta / step⌋`, i.e.
`floor(maxAbsDelta / stepSize)` bumped to `1` when the floor is `0`; hence it is
always at least `1` and the tick loop runs at least one iteration. -/
theorem C3_tick_count_floor_with_min_one
    (maxAngle target step : ℚ) (cur : List (Option ℚ)) (h : 0 < step) :
    numSteps (clamp maxAngle target) step cur
        = max 1 ⌊maxDelta (clamp maxAngle target) cur / step⌋
    ∧ 1 ≤ numSteps (clamp maxAngle target) step cur
    ∧ 1 ≤ (numSteps (clamp maxAngle target) step cur).toNat := by
  refine ⟨numSteps_eq_max _ _ _ h, numSteps_pos _ _ _ h, ?_⟩
  have := numSteps_pos (clamp maxAngle target) step cur h
  omega

/-- Witness for C3 at a degenerate input: target equal to the current angle still
yields a tick count of `1`. -/
theorem C3_tick_count_floor_with_min_one_witness :
    numSteps (clamp 180 60) 1 [some 60] = max 1 ⌊maxDelta (clamp 180 60) [some 60] / 1⌋
    ∧ 1 ≤ numSteps (clamp 180 60) 1 [some 60]
    ∧ 1 ≤ (numSteps (clamp 180 60) 1 [some 60]).toNat :=
  C3_tick_count_floor_with_min_one 180 60 1 [some 60] (by norm_num)

/-- Claim C2: for a move with `step > 0`, each channel's per-tick increment equals
`(clamped target − current) / tickCount` with the single shared tick count
`numSteps`; after `k` ticks the channel has advanced by exactly `k` equal
increments, and after `tickCount` ticks every channel in the plan has reached the
clamped target exactly — all channels start and finish in the same number of
ticks. -/
theorem C2_shared_tick_count_equal_steps
    (maxAngle target : ℚ) (cur : List (Option ℚ)) (step : ℚ) (i : ℕ) (a : ℚ) (k : ℕ)
    (hstep : 0 < step) (hi : cur.getD i none = some a)
    (hk : k ≤ (numSteps (clamp maxAngle target) step cur).toNat) :
    (increments (clamp maxAngle target) cur
        (numSteps (clamp maxAngle target) step cur)).getD i 0
      = (clamp maxAngle target - a)
          / ((numSteps (clamp maxAngle target) step cur : ℤ) : ℚ)
    ∧ (tickStateAfter maxAngle target cur step k).getD i none
      = some (a + (k : ℚ) * ((clamp maxAngle target - a)
          / ((numSteps (clamp maxAngle target) step cur : ℤ) : ℚ)))
    ∧ (tickStateAfter maxAngle target cur step
        (numSteps (clamp maxAngle target) step cur).toNat).getD i none
      = some (clamp maxAngle target) := by
  have hn := numSteps_pos (clamp maxAngle target) step cur hstep
  have hnQ : (0 : ℚ) < ((numSteps (clamp maxAngle target) step cur : ℤ) : ℚ) := by
    exact_mod_cast lt_of_lt_of_le zero_lt_one hn
  refine ⟨increments_getD hi, tickState_linear maxAngle target cur step hi k, ?_⟩
  rw [tickState_linear maxAngle target cur step hi, numSteps_toNat_cast _ _ _ hstep]
  congr 1
  rw [mul_comm, div_mul_cancel₀ _ (ne_of_gt hnQ)]
  ring

/-- Witness for C2 at a concrete two-channel move: channels at `90` and `110`
moving to `120` with step `5` share tick count `6`; channel 1 advances by `5/3`
per tick. -/
theorem C2_shared_tick_count_equal_steps_witness :
    (increments (clamp 180 120) [some 90, some 110]
        (numSteps (clamp 180 120) 5 [some 90, some 110])).getD 1 0
      = (clamp 180 120 - 110)
          / ((numSteps (clamp 180 120) 5 [some 90, some 110] : ℤ) : ℚ)
    ∧ (tickStateAfter 180 120 [some 90, some 110] 5 3).getD 1 none
      = some (110 + (3 : ℚ) * ((clamp 180 120 - 110)
          / ((numSteps (clamp 180 120) 5 [some 90, some 110] : ℤ) : ℚ)))
    ∧ (tickStateAfter 180 120 [some 90, some 110] 5
        (numSteps (clamp 180 120) 5 [some 90, some 110]).toNat).getD 1 none
      = some (clamp 180 120) :=
  C2_shared_tick_count_equal_steps 180 120 [some 90, some 110] 5 1 110 3
    (by norm_num) (by decide) (by decide)

/-- Claim C9 (implicit): in exact rational arithmetic, after `k ≤ tickCount` ticks of
a `step > 0` move, each tracked channel sits exactly on the linear path between its
start angle and the clamped target, hence always between the two; no channel
overshoots before the final snap. -/
theorem C9_linear_path_no_overshoot
    (maxAngle target : ℚ) (cur : List (Option ℚ)) (step : ℚ) (i : ℕ) (a : ℚ) (k : ℕ)
    (hstep : 0 < step) (hi : cur.getD i none = some a)
    (hk : k ≤ (numSteps (clamp maxAngle target) step cur).toNat) :
    (tickStateAfter maxAngle target cur step k).getD i none
      = some (a + (k : ℚ) * ((clamp maxAngle target - a)
          / ((numSteps (clamp maxAngle target) step cur : ℤ) : ℚ)))
    ∧ min a (clamp maxAngle target)
      ≤ a + (k : ℚ) * ((clamp maxAngle target - a)
          / ((numSteps (clamp maxAngle target) step cur : ℤ) : ℚ))
    ∧ a + (k : ℚ) * ((clamp maxAngle target - a)
          / ((numSteps (clamp maxAngle target) step cur : ℤ) : ℚ))
      ≤ max a (clamp maxAngle target) := by
  have hn := numSteps_pos (clamp maxAngle target) step cur hstep
  have hnQ : (0 : ℚ) < ((numSteps (clamp maxAngle target) step cur : ℤ) : ℚ) := by
    exact_mod_cast lt_of_lt_of_le zero_lt_one hn
  have hkn : (k : ℚ) ≤ ((numSteps (clamp maxAngle target) step cur : ℤ) : ℚ) := by
    calc (k : ℚ) ≤ (((numSteps (clamp maxAngle target) step cur).toNat : ℕ) : ℚ) := by
          exact_mod_cast hk
    _ = _ := numSteps_toNat_cast _ _ _ hstep
  have hq : ((numSteps (clamp maxAngle target) step cur : ℤ) : ℚ)
      * ((clamp maxAngle target - a)
          / ((numSteps (clamp maxAngle target) step cur : ℤ) : ℚ))
      = clamp maxAngle target - a := by
    rw [mul_comm, div_mul_cancel₀ _ (ne_of_gt hnQ)]
  refine ⟨tickState_linear maxAngle target cur step hi k, ?_, ?_⟩
  · rcases le_total a (clamp maxAngle target) with hat | hat
    · rw [min_eq_left hat]
      have hsub : (0 : ℚ) ≤ clamp maxAngle target - a := by linarith
      have h0 : 0 ≤ (k : ℚ) * ((clamp maxAngle target - a)
          / ((numSteps (clamp maxAngle target) step cur : ℤ) : ℚ)) :=
        mul_nonneg (Nat.cast_nonneg k) (div_nonneg hsub hnQ.le)
      linarith
    · rw [min_eq_right hat]
      have hsub : clamp maxAngle target - a ≤ (0 : ℚ) := by linarith
      have hq0 : (clamp maxAngle target - a)
          / ((numSteps (clamp maxAngle target) step cur : ℤ) : ℚ) ≤ 0 :=
        div_nonpos_of_nonpos_of_nonneg hsub hnQ.le
      have h1 := mul_le_mul_of_nonpos_right hkn hq0
      linarith
  · rcases le_total a (clamp maxAngle target) with hat | hat
    · rw [max_eq_right hat]
      have hsub : (0 : ℚ) ≤ clamp maxAngle target - a := by linarith
      have h1 := mul_le_mul_of_nonneg_right hkn (div_nonneg hsub hnQ.le)
      linarith
    · rw [max_eq_left hat]
      have hsub : clamp maxAngle target - a ≤ (0 : ℚ) := by linarith
      have hq0 : (clamp maxAngle target - a)
          / ((numSteps (clamp maxAngle target) step cur : ℤ) : ℚ) ≤ 0 :=
        div_nonpos_of_nonpos_of_nonneg hsub hnQ.le
      have h0 : (k : ℚ) * ((clamp maxAngle target - a)
          / ((numSteps (clamp maxAngle target) step cur : ℤ) : ℚ)) ≤ 0 :=
        mul_nonpos_iff.mpr (Or.inl ⟨Nat.cast_nonneg k, hq0⟩)
      linarith

/-- Witness for C9 at a concrete downward move: channel at `170` moving to `120`
with step `10` (tick count `5`), after `2` ticks. -/
theorem C9_linear_path_no_overshoot_witness :
    (tickStateAfter 180 120 [some 170] 10 2).getD 0 none
      = some (170 + (2 : ℚ) * ((clamp 180 120 - 170)
          / ((numSteps (clamp 180 120) 10 [some 170] : ℤ) : ℚ)))
    ∧ min 170 (clamp 180 120)
      ≤ 170 + (2 : ℚ) * ((clamp 180 120 - 170)
          / ((numSteps (clamp 180 120) 10 [some 170] : ℤ) : ℚ))
    ∧ 170 + (2 : ℚ) * ((clamp 180 120 - 170)
          / ((numSteps (clamp 180 120) 10 [some 170] : ℤ) : ℚ))
      ≤ max 170 (clamp 180 120) :=
  C9_linear_path_no_overshoot 180 120 [some 170] 10 0 170 2
    (by norm_num) (by decide) (by decide)

/-- Claim C4, counterexample: the claim as stated is false on the code. On a tick the
tracker entry receives the *unclamped* `new_angle` (line 117) while only the sink
write is clamped (line 116): starting channel 0 at `240` with target `300`
(clamped to `180`) and step `1`, after one tick the stored entry is `239`, which
lies outside `[0, 180]` and differs from the clamped value `180` sent to the
sink. -/
theorem C4_counterexample_state_stores_unclamped :
    (tickStateAfter 180 300 [some 240] 1 1).getD 0 none = some 239
    ∧ ¬ ((239 : ℚ) ≤ 180)
    ∧ clamp 180 239 = 180
    ∧ (239 : ℚ) ≠ clamp 180 239 := by decide

/-- Claim C4, amended: the sink always receives the clamped value, while the state
entry receives the raw `new_angle`; nevertheless, whenever every initial tracked
angle lies within `[0, maxAngle]` (as is the case throughout this program, which
starts all channels at `90` and ends every move at the clamped target), every
value stored in the state during the tick loop and after the final snap lies
within `[0, maxAngle]`, and every value propagated to the sink lies within
`[0, maxAngle]` unconditionally. -/
theorem C4_amended_invariant_for_in_range_starts
    (maxAngle target : ℚ) (cur : List (Option ℚ)) (step : ℚ) (k j : ℕ)
    (b c : ℚ) (e : Exec) (w : ℕ × ℚ)
    (hM : 0 ≤ maxAngle)
    (hinit : ∀ o ∈ cur, ∀ x : ℚ, o = some x → 0 ≤ x ∧ x ≤ maxAngle)
    (hk : k ≤ (numSteps (clamp maxAngle target) step cur).toNat) :
    ((tickStateAfter maxAngle target cur step k).getD j none = some b →
      0 ≤ b ∧ b ≤ maxAngle)
    ∧ (move_servos_smoothly maxAngle target cur step noFail = .ok e →
        (e.cur.getD j none = some c → 0 ≤ c ∧ c ≤ maxAngle)
        ∧ (w ∈ e.writes → 0 ≤ w.2 ∧ w.2 ≤ maxAngle)) := by
  have ht0 := clamp_nonneg maxAngle target
  have htM := clamp_le maxAngle target hM
  constructor
  · intro hb
    cases hcur : cur.getD j none with
    | none =>
      rw [tickStateAfter_getD, hcur] at hb
      cases hb
    | some a =>
      obtain ⟨ha0, haM⟩ := hinit _ (mem_of_getD hcur) _ rfl
      have hlin := tickState_linear maxAngle target cur step hcur k
      rw [hlin] at hb
      have hb2 := Option.some.inj hb
      rw [← hb2]
      rcases Nat.eq_zero_or_pos k with rfl | hkpos
      · push_cast
        constructor <;> linarith
      · have hn1 : 1 ≤ numSteps (clamp maxAngle target) step cur := by omega
        have hnQ1 : (1 : ℚ) ≤ ((numSteps (clamp maxAngle target) step cur : ℤ) : ℚ) := by
          exact_mod_cast hn1
        have hkn : (k : ℚ) ≤ ((numSteps (clamp maxAngle target) step cur : ℤ) : ℚ) := by
          calc (k : ℚ)
              ≤ (((numSteps (clamp maxAngle target) step cur).toNat : ℕ) : ℚ) := by
                exact_mod_cast hk
            _ = _ := toNat_cast_of_pos hn1
        obtain ⟨hlo, hhi⟩ := interp_bounds a (clamp maxAngle target)
          ((numSteps (clamp maxAngle target) step cur : ℤ) : ℚ) k hnQ1 hkn
        exact ⟨le_trans (le_min ha0 ht0) hlo, le_trans hhi (max_le haM htM)⟩
  · intro hok
    obtain ⟨-, he⟩ := move_ok_eq hok
    constructor
    · intro hc
      rw [he] at hc
      cases hcur : cur.getD j none with
      | none =>
        unfold moveExec at hc
        rw [snapAllOk_getD, runTicksOk_getD] at hc
        revert hc
        show ((cur.getD j none).map _).map _ = some c → _
        rw [hcur]
        intro hc
        cases hc
      | some a =>
        have hms : (moveExec maxAngle target cur step).cur.getD j none
            = some (clamp maxAngle target) := moveExec_getD hcur
        rw [hms] at hc
        have hct := Option.some.inj hc
        rw [← hct]
        exact ⟨ht0, htM⟩
    · intro hw
      rw [he] at hw
      unfold moveExec at hw
      rw [snapAllOk_writes] at hw
      rcases List.mem_append.mp hw with h2 | h2
      · rcases runTicksOk_writes_val maxAngle _ _ _ w h2 with h3 | h3
        · cases h3
        · obtain ⟨v, hv⟩ := h3
          rw [hv]
          exact ⟨clamp_nonneg maxAngle v, clamp_le maxAngle v hM⟩
      · obtain ⟨jj, hjj, hje⟩ := List.mem_map.mp h2
        rw [← hje]
        exact ⟨ht0, htM⟩

/-- Witness for the amended C4 at a concrete in-range input: channel at `170`,
target `200` clamped to `180`, step `5` (tick count `2`, increment `5`); after one
tick the stored angle is `175`, and the completed move stores `180` with writes
`175`, `180`, `180`, all within `[0, 180]`. -/
theorem C4_amended_invariant_for_in_range_starts_witness :
    ((tickStateAfter 180 200 [some 170] 5 1).getD 0 none = some 175 →
      0 ≤ (175 : ℚ) ∧ (175 : ℚ) ≤ 180)
    ∧ (move_servos_smoothly 180 200 [some 170] 5 noFail
          = .ok ⟨[some 180], [(0, 175), (0, 180), (0, 180)], 3⟩ →
        ((⟨[some 180], [(0, 175), (0, 180), (0, 180)], 3⟩ : Exec).cur.getD 0 none
            = some 180 → 0 ≤ (180 : ℚ) ∧ (180 : ℚ) ≤ 180)
        ∧ ((0, (175 : ℚ))
              ∈ (⟨[some 180], [(0, 175), (0, 180), (0, 180)], 3⟩ : Exec).writes →
          0 ≤ (175 : ℚ) ∧ (175 : ℚ) ≤ 180)) :=
  C4_amended_invariant_for_in_range_starts 180 200 [some 170] 5 1 0 175 180
    ⟨[some 180], [(0, 175), (0, 180), (0, 180)], 3⟩ (0, 175)
    (by norm_num) (by decide) (by decide)

/-- Claim C6, counterexample: the claim as stated is false on the code: a *negative*
step size does not fail at all. With step `-1`, `int(max_delta / step)` is
negative, the tick loop body runs zero times, the final snap still writes the
clamped target, and the call returns normally. -/
theorem C6_counterexample_negative_step_completes :
    ((-1 : ℚ) ≤ 0)
    ∧ move_servos_smoothly 180 120 [some 90] (-1) noFail
        = .ok ⟨[some 120], [(0, 120)], 1⟩ := by decide

/-- Claim C6, amended: only a step size of exactly `0` makes planning fail — with a
`ZeroDivisionError` at the `int(max_delta / step)` computation (line 97), before
any tick is executed and before any write to state or sink (the returned result
carries no execution record at all); a negative step size does not fail: the move
completes normally (against a non-failing sink) and the final snap still forces
every tracked channel to the clamped target. -/
theorem C6_amended_only_zero_step_fails
    (maxAngle target : ℚ) (cur : List (Option ℚ)) (step : ℚ) (f : ℕ → Bool) :
    move_servos_smoothly maxAngle target cur 0 f = .zeroDivisionError
    ∧ (step < 0 →
        move_servos_smoothly maxAngle target cur step noFail
          = .ok (moveExec maxAngle target cur step)) := by
  constructor
  · unfold move_servos_smoothly
    rw [if_pos rfl]
  · intro hs
    exact move_noFail maxAngle target cur step (ne_of_lt hs)

/-- Witness for the amended C6: step `0` raises; step `-1` completes. -/
theorem C6_amended_only_zero_step_fails_witness :
    move_servos_smoothly 180 120 [some 90] 0 noFail = .zeroDivisionError
    ∧ move_servos_smoothly 180 120 [some 90] (-1) noFail
        = .ok (moveExec 180 120 [some 90] (-1)) :=
  ⟨(C6_amended_only_zero_step_fails 180 120 [some 90] (-1) noFail).1,
    (C6_amended_only_zero_step_fails 180 120 [some 90] (-1) noFail).2 (by norm_num)⟩

/-- Claim C7: if a sink write raises on some tick for some channel, the exception
escapes `move_servos_smoothly` unmasked (the result is `hardwareError`, carrying
the execution record as left at that moment); every sink call made before the
failing one succeeded and was recorded (no retry, the failing call records
nothing), the failing call is the first one for which the sink raises, and the
writes performed are exactly an initial segment of the writes of the
corresponding failure-free run — nothing further is written. The failing
channel's tracker entry keeps its pre-write value since line 116 precedes
line 117. -/
theorem C7_sink_failure_fail_fast_unmasked
    (maxAngle target : ℚ) (cur : List (Option ℚ)) (step : ℚ) (f : ℕ → Bool)
    (c : ℕ) (e eP : Exec) (m : ℕ)
    (herr : move_servos_smoothly maxAngle target cur step f = .hardwareError c e)
    (hP : move_servos_smoothly maxAngle target cur step noFail = .ok eP)
    (hm : m < e.wcount) :
    e.writes.length = e.wcount
    ∧ f m = false
    ∧ f e.wcount = true
    ∧ e.writes = eP.writes.take e.wcount := by
  obtain ⟨hs, hI, hf⟩ := move_err herr
  obtain ⟨-, hPe⟩ := move_ok_eq hP
  obtain ⟨w, hw⟩ := move_err_writes herr
  refine ⟨hI.1, hI.2 m hm, hf, ?_⟩
  rw [hPe, hw, ← hI.1, List.take_left]

/-- Witness for C7: two channels at `90` and `110` moving to `120` with step `5`;
the sink raises on its second call (call index `1`, channel `1`, first tick). -/
theorem C7_sink_failure_fail_fast_unmasked_witness :
    (⟨[some 95, some 110], [(0, 95)], 1⟩ : Exec).writes.length
        = (⟨[some 95, some 110], [(0, 95)], 1⟩ : Exec).wcount
    ∧ (fun m => decide (m = 1)) 0 = false
    ∧ (fun m => decide (m = 1)) (⟨[some 95, some 110], [(0, 95)], 1⟩ : Exec).wcount
        = true
    ∧ (⟨[some 95, some 110], [(0, 95)], 1⟩ : Exec).writes
        = (moveExec 180 120 [some 90, some 110] 5).writes.take
            (⟨[some 95, some 110], [(0, 95)], 1⟩ : Exec).wcount :=
  C7_sink_failure_fail_fast_unmasked 180 120 [some 90, some 110] 5
    (fun m => decide (m = 1)) 1 ⟨[some 95, some 110], [(0, 95)], 1⟩
    (moveExec 180 120 [some 90, some 110] 5) 0
    (by decide) (move_noFail 180 120 [some 90, some 110] 5 (by norm_num)) (by decide)

/-- Claim C8: planning and executing a move whose (in-range) target equals every
tracked channel's current angle completes without error, leaves the tracked state
unchanged, and performs exactly one tick's worth of writes equal to the current
angle followed by the final snap writing it once more (tick count is `1` because
`max_delta = 0`). -/
theorem C8_idempotent_move
    (maxAngle target : ℚ) (cur : List (Option ℚ)) (step : ℚ)
    (hstep : step ≠ 0)
    (ht : clamp maxAngle target = target)
    (hcur : ∀ o ∈ cur, ∀ x : ℚ, o = some x → x = target) :
    move_servos_smoothly maxAngle target cur step noFail
        = .ok (moveExec maxAngle target cur step)
    ∧ (moveExec maxAngle target cur step).cur = cur
    ∧ (moveExec maxAngle target cur step).writes
        = (activeIdx cur).map (fun j => (j, target))
          ++ (activeIdx cur).map (fun j => (j, target)) := by
  have hmd : maxDelta (clamp maxAngle target) cur = 0 := by
    rw [ht]
    exact maxDelta_eq_zero hcur
  have hp0 : pyInt 0 = 0 := by decide
  have hn : numSteps (clamp maxAngle target) step cur = 1 := by
    unfold numSteps
    rw [hmd, zero_div, hp0]
    norm_num
  have hn1 : (numSteps (clamp maxAngle target) step cur).toNat = 1 := by
    rw [hn]
    rfl
  have hinc : ∀ j x, cur.getD j none = some x →
      (increments (clamp maxAngle target) cur
        (numSteps (clamp maxAngle target) step cur)).getD j 0 = 0 := by
    intro j x hx
    have hxx : x = target := hcur _ (mem_of_getD hx) _ rfl
    rw [increments_getD hx, hn, ht, hxx]
    norm_num
  refine ⟨move_noFail maxAngle target cur step hstep, ?_, ?_⟩
  · apply list_ext_getD
    · unfold moveExec
      rw [snapAllOk_length, runTicksOk_length]
    · intro j
      unfold moveExec
      rw [snapAllOk_getD, runTicksOk_getD]
      show ((cur.getD j none).map _).map _ = cur.getD j none
      cases hj : cur.getD j none with
      | none => rfl
      | some x =>
        have hxx : x = target := hcur _ (mem_of_getD hj) _ rfl
        simp only [Option.map_some']
        rw [ht, hxx]
  · unfold moveExec
    rw [snapAllOk_writes, hn1]
    have hone : runTicksOk maxAngle
        (increments (clamp maxAngle target) cur
          (numSteps (clamp maxAngle target) step cur)) 1 ⟨cur, [], 0⟩
        = tickAllOk maxAngle
            (increments (clamp maxAngle target) cur
              (numSteps (clamp maxAngle target) step cur)) ⟨cur, [], 0⟩ := rfl
    rw [hone]
    have hleft : (tickAllOk maxAngle
        (increments (clamp maxAngle target) cur
          (numSteps (clamp maxAngle target) step cur)) ⟨cur, [], 0⟩).writes
        = (activeIdx cur).map (fun j => (j, target)) := by
      rw [tickAllOk_writes]
      show (activeIdx cur).map _ = (activeIdx cur).map _
      apply List.map_congr_left
      intro j hj
      obtain ⟨x, hx⟩ := Option.isSome_iff_exists.mp (mem_activeIdx_isSome hj)
      have hxx : x = target := hcur _ (mem_of_getD hx) _ rfl
      show (j, clamp maxAngle ((cur.getD j none).getD 0
        + (increments (clamp maxAngle target) cur
            (numSteps (clamp maxAngle target) step cur)).getD j 0)) = (j, target)
      rw [hx, hinc j x hx]
      show (j, clamp maxAngle (x + 0)) = (j, target)
      rw [add_zero, hxx, ht]
    have hright : activeIdx (tickAllOk maxAngle
        (increments (clamp maxAngle target) cur
          (numSteps (clamp maxAngle target) step cur)) ⟨cur, [], 0⟩).cur
        = activeIdx cur := activeIdx_tickAllOk _ _ _
    rw [hleft, hright, ht]

/-- Witness for C8: the spec's concrete scenario — channel `0` at `60`, target
`60`, step `1`: one tick writes `60`, the snap writes `60` again, the state is
unchanged. -/
theorem C8_idempotent_move_witness :
    move_servos_smoothly 180 60 [some 60] 1 noFail
        = .ok (moveExec 180 60 [some 60] 1)
    ∧ (moveExec 180 60 [some 60] 1).cur = [some 60]
    ∧ (moveExec 180 60 [some 60] 1).writes
        = (activeIdx [some 60]).map (fun j => (j, 60))
          ++ (activeIdx [some 60]).map (fun j => (j, 60)) :=
  C8_idempotent_move 180 60 [some 60] 1 (by norm_num) (by decide) (by decide)

/-- Claim C10 (implicit): a channel whose tracked angle is the sentinel `None` is
completely excluded from a move: it contributes nothing to `max_delta` (erasing it
leaves `max_delta` unchanged), it is assigned increment `0`, after a completed
move its tracker entry is still `None`, and no sink write — tick or snap —
addresses it. -/
theorem C10_none_channel_fully_excluded
    (maxAngle target : ℚ) (cur : List (Option ℚ)) (step : ℚ) (f : ℕ → Bool)
    (e : Exec) (i : ℕ) (w : ℕ × ℚ)
    (hi : cur.getD i none = none)
    (hok : move_servos_smoothly maxAngle target cur step f = .ok e) :
    (increments (clamp maxAngle target) cur
        (numSteps (clamp maxAngle target) step cur)).getD i 0 = 0
    ∧ maxDelta (clamp maxAngle target) (cur.eraseIdx i)
        = maxDelta (clamp maxAngle target) cur
    ∧ e.cur.getD i none = none
    ∧ (w ∈ e.writes → w.1 ≠ i) := by
  obtain ⟨-, he⟩ := move_ok_eq hok
  refine ⟨increments_getD_none hi, maxDelta_eraseIdx hi, ?_, ?_⟩
  · rw [he]
    unfold moveExec
    rw [snapAllOk_getD, runTicksOk_getD]
    show ((cur.getD i none).map _).map _ = none
    rw [hi]
    rfl
  · intro hw
    rw [he] at hw
    unfold moveExec at hw
    rw [snapAllOk_writes] at hw
    rcases List.mem_append.mp hw with h2 | h2
    · rcases runTicksOk_writes_mem maxAngle _ _ _ w h2 with h3 | h3
      · cases h3
      · intro hwi
        have hsome : (cur.getD w.1 none).isSome = true := mem_activeIdx_isSome h3
        rw [hwi, hi] at hsome
        simp at hsome
    · obtain ⟨j, hj, hje⟩ := List.mem_map.mp h2
      intro hwi
      have hj2 : j ∈ activeIdx cur := by
        have := activeIdx_runTicksOk maxAngle
          (increments (clamp maxAngle target) cur
            (numSteps (clamp maxAngle target) step cur))
          (numSteps (clamp maxAngle target) step cur).toNat ⟨cur, [], 0⟩
        rw [this] at hj
        exact hj
      have hji : j = i := by
        rw [← hje] at hwi
        exact hwi
      have hsome : (cur.getD j none).isSome = true := mem_activeIdx_isSome hj2
      rw [hji, hi] at hsome
      simp at hsome

/-- Witness for C10: channel `0` is `None`, channel `1` moves from `90` to `120`
with step `30` (one tick); no write addresses channel `0` and its entry stays
`None`. -/
theorem C10_none_channel_fully_excluded_witness :
    (increments (clamp 180 120) [none, some 90]
        (numSteps (clamp 180 120) 30 [none, some 90])).getD 0 0 = 0
    ∧ maxDelta (clamp 180 120) ([none, some 90].eraseIdx 0)
        = maxDelta (clamp 180 120) [none, some 90]
    ∧ (⟨[none, some 120], [(1, 120), (1, 120)], 2⟩ : Exec).cur.getD 0 none = none
    ∧ ((1, (120 : ℚ)) ∈ (⟨[none, some 120], [(1, 120), (1, 120)], 2⟩ : Exec).writes →
        ((1, (120 : ℚ)) : ℕ × ℚ).1 ≠ 0) :=
  C10_none_channel_fully_excluded 180 120 [none, some 90] 30 noFail
    ⟨[none, some 120], [(1, 120), (1, 120)], 2⟩ 0 (1, 120)
    (by decide) (by decide)

set_option maxRecDepth 8000 in
/-- Claim C5: the mapped planner (modelled from the spec, the request-driven script
being absent from `src/`) accepts per-channel target mappings over the channel
set of the current angles; on the spec's concrete scenario — currents
`{0: 90, 1: 90}`, targets `{0: 120, 1: 100}`, step `1` — it computes
`maxAbsDelta = 30`, `tickCount = 30`, per-tick increments `1` and `1/3`, the
30-tick loop lands exactly on `{0: 120, 1: 100}`, and the final snap yields
exactly `{0: 120, 1: 100}`. -/
theorem C5_mapped_plan_concrete_scenario :
    maxAbsDeltaM [90, 90] (clampTargets 180 [120, 100]) = 30
    ∧ tickCountM 180 1 [90, 90] [120, 100] = 30
    ∧ incrementsM 180 1 [90, 90] [120, 100] = [1, 1 / 3]
    ∧ runTicksM 180 (incrementsM 180 1 [90, 90] [120, 100]) 30 [90, 90]
        = [120, 100]
    ∧ executeM 180 1 [90, 90] [120, 100] = [120, 100] := by decide

end SAR
